import Mathlib

/-!
Verification of the graph-based dependency-analysis engine.

The development shallowly embeds the engine's core:

* the version-compatibility heuristic of the Version Conflict Analyzer
  (function isCompatible together with its major/minor extraction),
* the graph data model (Project / Package / File nodes, DEPENDS_ON and
  HAS_FILE edges) and the Graph Builder's upsert operations,
* the derived package-to-package edge construction (linkPackageDependencies),
* the query semantics of the Cycle Detector and the Conflict Detector.

Graph-database queries are embedded by enumerating pattern matches over an
explicit graph state.  Node identity is the store's uniqueness-constraint key
(Project.name, Package.name, File.path); relationships are kept as a list, so
parallel edges between the same endpoints are representable.  JavaScript
numbers that only ever hold small integer counts are modelled as Nat, and a
JavaScript value that may be null is modelled as an Option.

The file holds the definitions first and every lemma and theorem after them.
-/

/-! ### Version string helpers (Conflict Detector: isCompatible) -/

/-- Numeric value of a run of decimal digit characters (JS parseInt). -/
def digitsToNat (l : List Char) : Nat :=
  l.foldl (fun acc c => acc * 10 + (c.toNat - 48)) 0

/-- Embeds the regex match for one or more digits used by getMajor: the
first maximal run of digit characters of the string, as a number;
none when the string contains no digit (JS match returning null). -/
def getMajor (v : String) : Option Nat :=
  match v.data.dropWhile (fun c => !c.isDigit) with
  | [] => none
  | l => some (digitsToNat (l.takeWhile (·.isDigit)))

/-- Scanner for the first occurrence of a digit run, a dot, and a second
digit run; returns the value of the second run.  The fuel argument only
bounds recursion and is instantiated with the list length, which strictly
exceeds the number of characters consumed before any recursive call. -/
def minorScan : Nat → List Char → Option Nat
  | 0, _ => none
  | _ + 1, [] => none
  | fuel + 1, c :: rest =>
    if c.isDigit then
      match rest.dropWhile (·.isDigit) with
      | '.' :: d :: rest2 =>
        if d.isDigit then some (digitsToNat (d :: rest2.takeWhile (·.isDigit)))
        else minorScan fuel (d :: rest2)
      | other => minorScan fuel other
    else minorScan fuel rest

/-- Embeds the regex used by getMinor inside isCompatible: the second group
of the first match of digits, a literal dot, then digits. -/
def getMinor (v : String) : Option Nat :=
  minorScan v.data.length v.data

/-- Embeds JavaScript String.startsWith for a single-character prefix. -/
def strStartsWith (v : String) (c : Char) : Bool :=
  match v.data with
  | [] => false
  | a :: _ => a = c

/-- Code-point lexicographic comparison of character lists, the string
ordering the store applies in ORDER BY and in name comparisons. -/
def charListLt : List Char → List Char → Bool
  | _, [] => false
  | [], _ :: _ => true
  | a :: as, b :: bs =>
    if a.toNat < b.toNat then true
    else if b.toNat < a.toNat then false
    else charListLt as bs

/-- Strict lexicographic string order (the store's name ordering). -/
def strLt (a b : String) : Bool := charListLt a.data b.data

/-- Lexicographic at-most order on strings. -/
def strLe (a b : String) : Bool := !(strLt b a)

/-- Embeds VersionConflictAnalyzer.isCompatible: identical strings are
compatible; two caret constraints are compatible iff their extracted major
components agree; two tilde constraints additionally require equal minor
components; every other combination is incompatible.  The JS comparison
null === null is true, which Option equality mirrors (none == none). -/
def isCompatible (version1 version2 : String) : Bool :=
  if version1 = version2 then true
  else if strStartsWith version1 '^' && strStartsWith version2 '^' then
    getMajor version1 == getMajor version2
  else if strStartsWith version1 '~' && strStartsWith version2 '~' then
    getMajor version1 == getMajor version2 && getMinor version1 == getMinor version2
  else false

/-! ### Cycle Detector result shapes and statistics -/

/-- One result row of the direct-cycle query, with the record keys the
implementation returns. -/
structure DirectCycle where
  package1 : String
  package2 : String
  deriving DecidableEq, Repr

/-- An integral value inside a driver result row.  The store driver is
constructed without the lossless-integers option, so an integral aggregate
such as count() arrives as an Integer object carrying low/high components
(the repository unwraps the low component by hand on other query paths),
never as a plain JS number; a plain number only arises from values the
program itself builds. -/
inductive JsIntValue
  | num (n : Nat)
  | integer (low : Nat)
  deriving DecidableEq, Repr

/-- Strict JS equality of such a value with the number literal 0: an
Integer object is never strictly equal to a number, whatever it holds. -/
def JsIntValue.strictEqZero : JsIntValue → Bool
  | JsIntValue.num n => n = 0
  | JsIntValue.integer _ => false

/-- The single aggregate row of the cycle statistics query; the count
arrives as a driver Integer object, and the aggregates min, max and avg
are null when no row reaches them.  (Present min/max values also arrive as
Integer objects; the program only passes them through, so the model keeps
their numeric content and their nullness, which is all any claim reads.) -/
structure CycleStatsRow where
  totalCycles : JsIntValue
  shortestCycle : Option Nat
  longestCycle : Option Nat
  avgCycleLength : Option Rat
  deriving DecidableEq, Repr

/-- The record the cycle getStatistics builds.  The zero branch fills every
field with the number 0; otherwise totalCycles, shortest and longest pass
the aggregate values through unchanged. -/
structure CycleStats where
  totalCycles : JsIntValue
  shortestCycle : Option Nat
  longestCycle : Option Nat
  avgCycleLength : Rat
  deriving DecidableEq, Repr

/-- JS toFixed(2) followed by parseFloat, modelled as decimal rounding to
two places (half up, matching the nonnegative averages that occur). -/
def toFixed2 (q : Rat) : Rat := ((Int.floor (q * 100 + 1 / 2) : Int) : Rat) / 100

/-- Embeds CircularDependencyAnalyzer.getStatistics as a function of the
outcome of its one store call: a query failure is caught, logged and turned
into the null return value; an empty result, or a first row whose
totalCycles is strictly equal to the number 0, yields the all-zero record;
otherwise the aggregate row is passed through, a null average becoming 0
under the or-default.  Because the driver delivers the count as an Integer
object, the strict zero test never fires on a driver row. -/
def CircularDependencyAnalyzer.getStatistics
    (storeResult : Except String (List CycleStatsRow)) :
    Except String (Option CycleStats) :=
  match storeResult with
  | Except.error _ => Except.ok none
  | Except.ok rows =>
    match rows with
    | [] => Except.ok (some ⟨JsIntValue.num 0, some 0, some 0, 0⟩)
    | record :: _ =>
      if record.totalCycles.strictEqZero then
        Except.ok (some ⟨JsIntValue.num 0, some 0, some 0, 0⟩)
      else
        Except.ok (some ⟨record.totalCycles, record.shortestCycle,
          record.longestCycle,
          match record.avgCycleLength with
          | none => 0
          | some q => toFixed2 q⟩)

/-! ### Graph data model

Node identity is the uniqueness-constraint key enforced by the store
(Project.name, Package.name, File.path).  An edge endpoint is a node
reference; DEPENDS_ON edges are kept in a list, so parallel relationships
between the same endpoints remain representable, exactly as in the store.
Properties whose value is the wall-clock timestamp (updatedAt / createdAt)
are omitted: no query of the engine ever reads them. -/

/-- Reference to a node by its label and constraint key. -/
inductive EdgeEnd
  | proj (name : String)
  | pkg (name : String)
  deriving DecidableEq, Repr

structure ProjectNode where
  name : String
  path : String
  language : String
  version : String
  description : String
  totalDependencies : Nat
  deriving DecidableEq, Repr

structure PackageNode where
  name : String
  version : String
  operator : String
  language : String
  deriving DecidableEq, Repr

structure FileNode where
  path : String
  name : String
  type : String
  language : String
  deriving DecidableEq, Repr

/-- A DEPENDS_ON relationship.  Properties that a direct edge sets but a
derived edge does not (and conversely) are Options: a direct edge carries
direct = some true and a line number and no source tag, while a derived edge
carries source = some "derived" and neither of the other two. -/
structure DependsOnEdge where
  src : EdgeEnd
  dst : EdgeEnd
  versionConstraint : String
  type : String
  direct : Option Bool
  lineNumber : Option Nat
  source : Option String
  deriving DecidableEq, Repr

/-- The whole persisted graph.  HAS_FILE edges are identified by the
(project name, file path) pair and carry no properties read anywhere. -/
structure GraphState where
  projects : List ProjectNode
  packages : List PackageNode
  files : List FileNode
  dependsOn : List DependsOnEdge
  hasFile : List (String × String)
  deriving DecidableEq, Repr

/-! ### Conflict Detector -/

/-- One collected map of the conflict queries:
the record with keys project, version (the constraint string of the edge),
and type. -/
structure DepEntry where
  project : String
  version : String
  type : String
  deriving DecidableEq, Repr

/-- Result shape of the conflict queries: packageName plus the collected
dependency maps. -/
structure ConflictRecord where
  packageName : String
  dependencies : List DepEntry
  deriving DecidableEq, Repr

/-- Match rows of the pattern Project DEPENDS_ON Package for one package
node, in enumeration order, one row per matching (project, relationship)
pair, already shaped as the collected map. -/
def depRowsFor (s : GraphState) (pkg : PackageNode) : List DepEntry :=
  s.projects.flatMap (fun proj =>
    (s.dependsOn.filter (fun r =>
        r.src = EdgeEnd.proj proj.name ∧ r.dst = EdgeEnd.pkg pkg.name)).map
      (fun r => ⟨proj.name, r.versionConstraint, r.type⟩))

/-- All match rows of the conflict queries, keyed by the grouping column
pkg.name. -/
def allDepRows (s : GraphState) : List (String × DepEntry) :=
  s.packages.flatMap (fun pkg => (depRowsFor s pkg).map (fun e => (pkg.name, e)))

/-- Insertion into a string list sorted ascending. -/
def insertAsc (x : String) : List String → List String
  | [] => [x]
  | y :: ys => if strLe x y then x :: y :: ys else y :: insertAsc x ys

/-- Ascending sort of the group keys, modelling ORDER BY packageName. -/
def sortAsc (l : List String) : List String := l.foldr insertAsc []

/-- Aggregation by the grouping key pkg.name shared by both conflict
queries: one group per distinct package name, ordered ascending by name
(ORDER BY packageName), the group holding the collected maps in row
order. -/
def conflictGroups (s : GraphState) : List (String × List DepEntry) :=
  (sortAsc ((allDepRows s).map (·.1)).dedup).map
    (fun n => (n, ((allDepRows s).filter (fun row => row.1 = n)).map (·.2)))

/-- Embeds findVersionConflicts, the primary strategy whose query dedupes in
the store: per group, dependencies := collect(DISTINCT map) — modelled by
List.dedup, the order of a deduplicated aggregate being unspecified by the
store — kept only when size(dependencies) > 1 and the set of version values
drawn from the deduplicated list has more than one element. -/
def findVersionConflicts (s : GraphState) : List ConflictRecord :=
  (conflictGroups s).filterMap (fun g =>
    if 1 < g.2.dedup.length then
      if 1 < ((g.2.dedup.map (·.version)).dedup).length then
        some ⟨g.1, g.2.dedup⟩
      else none
    else none)

/-- Embeds findVersionConflictsBasic, the fallback: the store query keeps
every group with more than one collected map (no dedup), and the caller then
filters for groups whose version values contain more than one distinct
string (the JS Set is modelled by List.dedup, whose length is the Set
size). -/
def findVersionConflictsBasic (s : GraphState) : List ConflictRecord :=
  ((conflictGroups s).filterMap (fun g =>
      if 1 < g.2.length then some (⟨g.1, g.2⟩ : ConflictRecord) else none)).filter
    (fun record => 1 < ((record.dependencies.map (·.version)).dedup).length)

/-- Match rows of findPackageConflict's query: the same pattern restricted
to package nodes named by the parameter. -/
def packageConflictRows (s : GraphState) (packageName : String) : List DepEntry :=
  s.packages.flatMap (fun pkg =>
    if pkg.name = packageName then depRowsFor s pkg else [])

/-- Embeds findPackageConflict: an empty query result (package absent or no
depending project) yields null; one distinct constraint string yields null;
otherwise the populated record is returned.  The returned packageName column
is the matched node's name, which equals the parameter whenever a row
exists. -/
def findPackageConflict (s : GraphState) (packageName : String) :
    Option ConflictRecord :=
  if (packageConflictRows s packageName).isEmpty then none
  else
    if ((packageConflictRows s packageName).map (·.version)).dedup.length = 1 then
      none
    else some ⟨packageName, packageConflictRows s packageName⟩

/-- Concrete graph for the C5 witness: two projects depend on package X with
two distinct constraint strings. -/
def conflictWitnessState : GraphState where
  projects := [⟨"P", "/p", "javascript", "1.0.0", "", 1⟩,
    ⟨"Q", "/q", "javascript", "1.0.0", "", 1⟩]
  packages := [⟨"X", "1.0.0", "^", "javascript"⟩]
  files := []
  dependsOn :=
    [⟨EdgeEnd.proj "P", EdgeEnd.pkg "X", "^1.0.0", "production", some true, some 0, none⟩,
     ⟨EdgeEnd.proj "Q", EdgeEnd.pkg "X", "^2.0.0", "production", some true, some 0, none⟩]
  hasFile := []

/-- Concrete graph refuting C3 as stated: project P carries two parallel
identical edges to package X and project Q one different constraint. -/
def parallelEdgeState : GraphState where
  projects := [⟨"P", "/p", "javascript", "1.0.0", "", 1⟩,
    ⟨"Q", "/q", "javascript", "1.0.0", "", 1⟩]
  packages := [⟨"X", "1.0.0", "", "javascript"⟩]
  files := []
  dependsOn :=
    [⟨EdgeEnd.proj "P", EdgeEnd.pkg "X", "1.0.0", "production", some true, some 0, none⟩,
     ⟨EdgeEnd.proj "P", EdgeEnd.pkg "X", "1.0.0", "production", some true, some 0, none⟩,
     ⟨EdgeEnd.proj "Q", EdgeEnd.pkg "X", "2.0.0", "production", some true, some 0, none⟩]
  hasFile := []

/-! ### Graph Builder

The Manifest Record contract and the upsert steps of buildProjectGraph.
A JavaScript field that may be undefined or empty — to which the builder
applies a logical-or default — is modelled as an Option resolved by the
same default rule. -/

/-- Evaluation of the JS idiom value-or-default, where undefined and the
empty string are both falsy. -/
def jsStringOrDefault (v : Option String) (d : String) : String :=
  match v with
  | none => d
  | some x => if x = "" then d else x

/-- One dependency record of a Manifest Record. -/
structure DependencyRecord where
  name : String
  version : String
  versionRange : Option String
  operator : Option String
  type : Option String
  lineNumber : Option Nat
  deriving DecidableEq, Repr

/-- The Manifest Record a parser hands to the builder. -/
structure ManifestRecord where
  projectName : String
  projectPath : String
  language : String
  version : Option String
  description : Option String
  dependencyFile : String
  dependencies : List DependencyRecord
  totalDependencies : Nat
  deriving DecidableEq, Repr

def hasProjectNamed (s : GraphState) (n : String) : Bool :=
  s.projects.any (fun p => p.name = n)

def hasPackageNamed (s : GraphState) (n : String) : Bool :=
  s.packages.any (fun p => p.name = n)

def hasFilePath (s : GraphState) (path : String) : Bool :=
  s.files.any (fun f => f.path = path)

def hasDirectEdge (s : GraphState) (projectName packageName : String) : Bool :=
  s.dependsOn.any (fun e =>
    e.src = EdgeEnd.proj projectName ∧ e.dst = EdgeEnd.pkg packageName)

/-- Embeds createProjectNode: MERGE the Project by name and SET its
properties — every node carrying the name is updated in place, otherwise a
new node is appended. -/
def mergeProjectNode (s : GraphState) (m : ManifestRecord) : GraphState :=
  if hasProjectNamed s m.projectName then
    { s with projects := s.projects.map (fun p =>
        if p.name = m.projectName then
          { p with
            path := m.projectPath
            language := m.language
            version := jsStringOrDefault m.version "1.0.0"
            description := jsStringOrDefault m.description ""
            totalDependencies := m.totalDependencies }
        else p) }
  else
    { s with projects := s.projects ++
        [⟨m.projectName, m.projectPath, m.language,
          jsStringOrDefault m.version "1.0.0",
          jsStringOrDefault m.description "", m.totalDependencies⟩] }

/-- Embeds the package upsert of createDependencyNodes: MERGE the Package
by name and SET version, operator and language.  Neither parser ever puts a
language on a dependency record, so the or-default always yields
javascript. -/
def mergePackageNode (s : GraphState) (dep : DependencyRecord) : GraphState :=
  if hasPackageNamed s dep.name then
    { s with packages := s.packages.map (fun p =>
        if p.name = dep.name then
          { p with
            version := dep.version
            operator := jsStringOrDefault dep.operator ""
            language := "javascript" }
        else p) }
  else
    { s with packages := s.packages ++
        [⟨dep.name, dep.version, jsStringOrDefault dep.operator "", "javascript"⟩] }

/-- Embeds the relationship upsert of createDependencyNodes: MATCH the
Project and the Package by name, then MERGE the DEPENDS_ON edge between
them and SET its properties (every parallel edge between the two nodes is
updated; the source tag of an edge is never touched here).  When either
node is missing the MATCH produces no row and nothing happens. -/
def mergeDependsOnEdge (s : GraphState) (projectName : String)
    (dep : DependencyRecord) : GraphState :=
  if hasProjectNamed s projectName && hasPackageNamed s dep.name then
    if hasDirectEdge s projectName dep.name then
      { s with dependsOn := s.dependsOn.map (fun e =>
          if e.src = EdgeEnd.proj projectName ∧ e.dst = EdgeEnd.pkg dep.name then
            { e with
              versionConstraint := jsStringOrDefault dep.versionRange dep.version
              type := jsStringOrDefault dep.type "production"
              direct := some true
              lineNumber := some (dep.lineNumber.getD 0) }
          else e) }
    else
      { s with dependsOn := s.dependsOn ++
          [⟨EdgeEnd.proj projectName, EdgeEnd.pkg dep.name,
            jsStringOrDefault dep.versionRange dep.version,
            jsStringOrDefault dep.type "production",
            some true, some (dep.lineNumber.getD 0), none⟩] }
  else s

/-- Embeds the loop of createDependencyNodes over the dependency records in
listed order. -/
def createDependencyNodes (s : GraphState) (projectName : String) :
    List DependencyRecord → GraphState
  | [] => s
  | dep :: rest =>
    createDependencyNodes
      (mergeDependsOnEdge (mergePackageNode s dep) projectName dep)
      projectName rest

/-- The fileName parameter of createFileNode: the last component of the
path split on slashes (JS split followed by pop). -/
def manifestFileName (m : ManifestRecord) : String :=
  (m.dependencyFile.splitOn "/").getLastD ""

/-- The File upsert of createFileNode: MERGE by path and SET the
properties. -/
def mergeFileOnly (s : GraphState) (m : ManifestRecord) : GraphState :=
  if hasFilePath s m.dependencyFile then
    { s with files := s.files.map (fun f =>
        if f.path = m.dependencyFile then
          { f with
            name := manifestFileName m
            type := "dependency_manifest"
            language := m.language }
        else f) }
  else
    { s with files := s.files ++
        [⟨m.dependencyFile, manifestFileName m, "dependency_manifest", m.language⟩] }

/-- The HAS_FILE upsert of createFileNode: MERGE of the property-less edge
identified by the (project name, file path) pair. -/
def mergeHasFileEdge (s : GraphState) (m : ManifestRecord) : GraphState :=
  if s.hasFile.contains (m.projectName, m.dependencyFile) then s
  else { s with hasFile := s.hasFile ++ [(m.projectName, m.dependencyFile)] }

/-- Embeds createFileNode: MATCH the Project, MERGE the File by path and
SET its properties, MERGE the HAS_FILE edge.  Without the project the MATCH
yields no row and nothing happens. -/
def mergeFileNode (s : GraphState) (m : ManifestRecord) : GraphState :=
  if hasProjectNamed s m.projectName then
    mergeHasFileEdge (mergeFileOnly s m) m
  else s

/-- Embeds buildProjectGraph: project upsert, then the per-dependency
package and edge upserts in listed order, then the file upsert. -/
def buildProjectGraph (s : GraphState) (m : ManifestRecord) : GraphState :=
  mergeFileNode
    (createDependencyNodes (mergeProjectNode s m) m.projectName m.dependencies) m

/-! ### Presence predicates for upsert reasoning -/

def HasProject (s : GraphState) (n : String) : Prop := ∃ p ∈ s.projects, p.name = n

def HasPackage (s : GraphState) (n : String) : Prop := ∃ p ∈ s.packages, p.name = n

def HasManifestFile (s : GraphState) (fp : String) : Prop := ∃ f ∈ s.files, f.path = fp

def HasEdge (s : GraphState) (pn kn : String) : Prop :=
  ∃ e ∈ s.dependsOn, e.src = EdgeEnd.proj pn ∧ e.dst = EdgeEnd.pkg kn

/-! ### Derived package-to-package links -/

/-- One match row of the linkPackageDependencies query: a Project, the
Package sharing its name, and one direct DEPENDS_ON edge from the Project
to some Package. -/
structure LinkRow where
  projName : String
  depName : String
  versionConstraint : String
  type : String
  deriving DecidableEq, Repr

/-- All match rows of the linkPackageDependencies query over the initial
state (the rows are fully determined before the merges run, and a created
package-to-package edge can never enter the Project-sourced pattern). -/
def linkRows (s : GraphState) : List LinkRow :=
  s.projects.flatMap (fun proj =>
    s.packages.flatMap (fun pkg =>
      if pkg.name = proj.name then
        s.packages.flatMap (fun depPkg =>
          (s.dependsOn.filter (fun r =>
              r.src = EdgeEnd.proj proj.name ∧ r.dst = EdgeEnd.pkg depPkg.name)).map
            (fun r => ⟨proj.name, depPkg.name, r.versionConstraint, r.type⟩))
      else []))

/-- MERGE of one derived edge: when a Package-to-Package DEPENDS_ON edge
between the endpoints already exists it is left untouched, otherwise the
edge is created and ON CREATE SET tags it source = "derived" and copies the
direct edge's constraint and type. -/
def applyLinkRow (s : GraphState) (row : LinkRow) : GraphState :=
  if s.dependsOn.any (fun e =>
      e.src = EdgeEnd.pkg row.projName ∧ e.dst = EdgeEnd.pkg row.depName) then s
  else
    { s with dependsOn := s.dependsOn ++
        [⟨EdgeEnd.pkg row.projName, EdgeEnd.pkg row.depName,
          row.versionConstraint, row.type, none, none, some "derived"⟩] }

/-- Embeds linkPackageDependencies as a state transformation, processing
the match rows in order.  (The query also returns count(DISTINCT r2); no
claim concerns that number.) -/
def linkPackageDependencies (s : GraphState) : GraphState :=
  (linkRows s).foldl applyLinkRow s

/-- The edge applyLinkRow creates when the MERGE pattern has no match. -/
def mkDerivedEdge (row : LinkRow) : DependsOnEdge :=
  ⟨EdgeEnd.pkg row.projName, EdgeEnd.pkg row.depName,
    row.versionConstraint, row.type, none, none, some "derived"⟩

/-- Concrete graph refuting C1 as stated: project app is also a package and
depends directly on package lib, which is not a project. -/
def linkCexState : GraphState where
  projects := [⟨"app", "/app", "javascript", "1.0.0", "", 1⟩]
  packages := [⟨"app", "1.0.0", "", "javascript"⟩, ⟨"lib", "1.0.0", "^", "javascript"⟩]
  files := []
  dependsOn := [⟨EdgeEnd.proj "app", EdgeEnd.pkg "lib", "^1.0.0", "production",
    some true, some 0, none⟩]
  hasFile := []

/-- Whether the target of an edge is a package name that is also the name
of a Project node of the state, as C1 demands of derived edges. -/
def derivedTargetIsProjectName (s : GraphState) (e : DependsOnEdge) : Bool :=
  match e.dst with
  | EdgeEnd.pkg n => hasProjectNamed s n
  | EdgeEnd.proj _ => false

/-- The derived edge produced on the counterexample graph. -/
def derivedAppLib : DependsOnEdge :=
  ⟨EdgeEnd.pkg "app", EdgeEnd.pkg "lib", "^1.0.0", "production", none, none,
    some "derived"⟩

/-! ### Cycle Detector queries -/

/-- All DEPENDS_ON walks from the node `current` that close at `target`,
as lists of edge indices in the edge list, never repeating a relationship
(the store's path-uniqueness rule); the fuel bounds recursion depth and is
instantiated with the number of edges, which no repetition-free walk can
exceed. -/
def pathsFrom (edges : List DependsOnEdge) (used : List Nat)
    (current target : EdgeEnd) : Nat → List (List Nat)
  | 0 => []
  | fuel + 1 =>
    (List.range edges.length).flatMap (fun i =>
      if i ∈ used then []
      else
        match edges[i]? with
        | none => []
        | some e =>
          if e.src = current then
            (if e.dst = target then [[i]] else [])
              ++ (pathsFrom edges (i :: used) e.dst target fuel).map (fun p => i :: p)
          else [])

/-- The match rows of the cycle statistics query (the same predicate
findAllCycles uses, before its ordering and cap): one row per directed
path of DEPENDS_ON relationships from a Package node back to itself with
more than one edge. -/
def cyclePathRows (s : GraphState) : List (List Nat) :=
  s.packages.flatMap (fun p =>
    (pathsFrom s.dependsOn [] (EdgeEnd.pkg p.name) (EdgeEnd.pkg p.name)
        s.dependsOn.length).filter (fun path => 1 < path.length))

/-- The one row the aggregating statistics query returns: the count of
distinct cycle paths — delivered by the driver as an Integer object — with
min, max and average of their lengths; an aggregate over no rows is
null. -/
def cycleStatsQuery (s : GraphState) : List CycleStatsRow :=
  [⟨JsIntValue.integer (cyclePathRows s).length,
    ((cyclePathRows s).map List.length).min?,
    ((cyclePathRows s).map List.length).max?,
    if cyclePathRows s = [] then none
    else some ((((cyclePathRows s).map List.length).sum : Rat)
      / ((cyclePathRows s).length : Rat))⟩]

/-- Embeds the direct-cycle query findDirectCircularDependencies: match
package nodes p1 and p2 with DEPENDS_ON edges both ways, keep the rows with
p1.name below p2.name, return the name pair.  The two relationships of one
row are automatically distinct — their source nodes differ under the name
filter — so the store's relationship-uniqueness rule adds no further
constraint. -/
def findDirectCircularDependencies (s : GraphState) : List DirectCycle :=
  s.packages.flatMap (fun p1 =>
    s.packages.flatMap (fun p2 =>
      (s.dependsOn.filter (fun r1 =>
          r1.src = EdgeEnd.pkg p1.name ∧ r1.dst = EdgeEnd.pkg p2.name)).flatMap (fun _ =>
        (s.dependsOn.filter (fun r2 =>
            r2.src = EdgeEnd.pkg p2.name ∧ r2.dst = EdgeEnd.pkg p1.name)).flatMap (fun _ =>
          if strLt p1.name p2.name then [⟨p1.name, p2.name⟩] else []))))

/-! ### Conflict Detector statistics -/

/-- The aggregate row of the conflict statistics query. -/
structure ConflictStatsRow where
  totalPackages : Nat
  sharedPackages : Nat
  deriving DecidableEq, Repr

/-- The record the conflict getStatistics builds. -/
structure ConflictStats where
  totalPackages : Nat
  sharedPackages : Nat
  conflictingPackages : Nat
  deriving DecidableEq, Repr

/-- Embeds VersionConflictAnalyzer.getStatistics as a function of the two
store interactions inside its try block: the aggregate query's outcome and
the outcome of the findVersionConflicts call it performs (that call reaches
the store and may itself fail).  Any failure is caught, logged and turned
into the null return value; an empty aggregate result returns the all-zero
record without running the conflict scan. -/
def VersionConflictAnalyzer.getStatistics
    (statsResult : Except String (List ConflictStatsRow))
    (conflictsResult : Except String (List ConflictRecord)) :
    Except String (Option ConflictStats) :=
  match statsResult with
  | Except.error _ => Except.ok none
  | Except.ok rows =>
    match rows with
    | [] => Except.ok (some ⟨0, 0, 0⟩)
    | record :: _ =>
      match conflictsResult with
      | Except.error _ => Except.ok none
      | Except.ok conflicts =>
        Except.ok (some ⟨record.totalPackages, record.sharedPackages, conflicts.length⟩)

/-- Acyclic concrete graph for C8: a single derived edge between two
packages. -/
def acyclicState : GraphState where
  projects := []
  packages := [⟨"A", "1.0.0", "", "javascript"⟩, ⟨"B", "1.0.0", "", "javascript"⟩]
  files := []
  dependsOn := [⟨EdgeEnd.pkg "A", EdgeEnd.pkg "B", "^1.0.0", "production",
    none, none, some "derived"⟩]
  hasFile := []

/-- Concrete graph for the C6 witness: packages D and E depend on each
other. -/
def mutualPairState : GraphState where
  projects := []
  packages := [⟨"D", "1.0.0", "", "javascript"⟩, ⟨"E", "1.0.0", "", "javascript"⟩]
  files := []
  dependsOn :=
    [⟨EdgeEnd.pkg "D", EdgeEnd.pkg "E", "^1.0.0", "production", none, none,
      some "derived"⟩,
     ⟨EdgeEnd.pkg "E", EdgeEnd.pkg "D", "^1.0.0", "production", none, none,
      some "derived"⟩]
  hasFile := []

/-! ### Theorems for the compatibility heuristic -/

lemma optNat_beq_comm (x y : Option Nat) : (x == y) = (y == x) := by
  by_cases h : x = y
  · subst h; rfl
  · rw [beq_eq_false_iff_ne.mpr h, beq_eq_false_iff_ne.mpr (Ne.symm h)]

/-- C4: isCompatible returns true on identical strings; on two caret
constraints it returns true exactly when the extracted majors agree; on two
tilde constraints exactly when major and minor both agree; in every other
combination it returns false. -/
theorem isCompatible_characterization (v1 v2 : String) :
    (v1 = v2 → isCompatible v1 v2 = true)
    ∧ (strStartsWith v1 '^' = true → strStartsWith v2 '^' = true →
        (isCompatible v1 v2 = true ↔ getMajor v1 = getMajor v2))
    ∧ (strStartsWith v1 '~' = true → strStartsWith v2 '~' = true →
        (isCompatible v1 v2 = true ↔
          (getMajor v1 = getMajor v2 ∧ getMinor v1 = getMinor v2)))
    ∧ (v1 ≠ v2 →
        ¬(strStartsWith v1 '^' = true ∧ strStartsWith v2 '^' = true) →
        ¬(strStartsWith v1 '~' = true ∧ strStartsWith v2 '~' = true) →
        isCompatible v1 v2 = false) := by
  refine ⟨fun h => by simp [isCompatible, h], ?_, ?_, ?_⟩
  · intro h1 h2
    by_cases heq : v1 = v2
    · subst heq; simp [isCompatible]
    · simp [isCompatible, heq, h1, h2]
  · intro h1 h2
    by_cases heq : v1 = v2
    · subst heq; simp [isCompatible]
    · have hc1 : ¬ (strStartsWith v1 '^' = true ∧ strStartsWith v2 '^' = true) := by
        rintro ⟨hc, _⟩
        unfold strStartsWith at h1 hc
        rcases hv : v1.data with _ | ⟨a, t⟩ <;> rw [hv] at h1 hc <;> simp_all
      simp only [isCompatible, if_neg heq]
      rw [if_neg (by simpa [Bool.and_eq_true] using hc1),
        if_pos (by simp [h1, h2])]
      simp
  · intro heq hc ht
    simp only [isCompatible, if_neg heq]
    rw [if_neg (by simpa [Bool.and_eq_true] using hc),
      if_neg (by simpa [Bool.and_eq_true] using ht)]

/-- Witness for C4: the four concrete evaluations named by the claim,
the caret pair obtained through the characterization theorem. -/
theorem isCompatible_characterization_witness :
    isCompatible "^4.18.0" "^4.17.0" = true
    ∧ isCompatible "^4.18.0" "^5.0.0" = false
    ∧ isCompatible "~1.2.0" "~1.3.0" = false
    ∧ isCompatible "1.0.0" "1.0.0" = true :=
  ⟨((isCompatible_characterization "^4.18.0" "^4.17.0").2.1 (by decide)
      (by decide)).mpr (by decide),
    by decide, by decide,
    (isCompatible_characterization "1.0.0" "1.0.0").1 rfl⟩

/-- C9: isCompatible is symmetric in its two arguments. -/
theorem isCompatible_symm (a b : String) : isCompatible a b = isCompatible b a := by
  by_cases h : a = b
  · subst h; rfl
  · simp only [isCompatible, if_neg h, if_neg (Ne.symm h)]
    rw [Bool.and_comm (strStartsWith a '^') (strStartsWith b '^'),
      Bool.and_comm (strStartsWith a '~') (strStartsWith b '~'),
      optNat_beq_comm (getMajor a) (getMajor b),
      optNat_beq_comm (getMinor a) (getMinor b)]

/-- C10: two distinct caret constraints containing no digit at all are
reported compatible, because both major extractions are absent and the
comparison of two absent values succeeds. -/
theorem isCompatible_caret_no_digits (a b : String) (hne : a ≠ b)
    (ha : strStartsWith a '^' = true) (hb : strStartsWith b '^' = true)
    (hda : ∀ c ∈ a.data, c.isDigit = false)
    (hdb : ∀ c ∈ b.data, c.isDigit = false) :
    isCompatible a b = true := by
  have hmaj : ∀ v : String, (∀ c ∈ v.data, c.isDigit = false) → getMajor v = none := by
    intro v hv
    unfold getMajor
    rw [List.dropWhile_eq_nil_iff.mpr (by intro x hx; simp [hv x hx])]
  simp [isCompatible, hne, ha, hb, hmaj a hda, hmaj b hdb]

/-- Witness for C10 at the concrete pair of digit-free caret strings. -/
theorem isCompatible_caret_no_digits_witness : isCompatible "^x" "^y" = true :=
  isCompatible_caret_no_digits "^x" "^y" (by decide) (by decide) (by decide)
    (by decide) (by decide)

/-! ### Theorems for the Conflict Detector -/

/-- C5: findPackageConflict is absent exactly when the number of distinct
constraint strings among the package's depending projects is at most one
(covering the package-absent and no-dependent cases), and any returned
record is the populated one for that package. -/
theorem findPackageConflict_absent_iff (s : GraphState) (n : String) :
    (findPackageConflict s n = none ↔
      ((packageConflictRows s n).map (·.version)).dedup.length ≤ 1)
    ∧ (∀ r, findPackageConflict s n = some r →
        r = ⟨n, packageConflictRows s n⟩ ∧ r.dependencies ≠ []) := by
  have main : ∀ rows : List DepEntry,
      ((if rows.isEmpty then none
          else if (rows.map (·.version)).dedup.length = 1 then none
          else some (⟨n, rows⟩ : ConflictRecord)) = none ↔
        (rows.map (·.version)).dedup.length ≤ 1)
      ∧ (∀ r, (if rows.isEmpty then none
            else if (rows.map (·.version)).dedup.length = 1 then none
            else some (⟨n, rows⟩ : ConflictRecord)) = some r →
          r = ⟨n, rows⟩ ∧ r.dependencies ≠ []) := by
    intro rows
    rcases rows with _ | ⟨e, t⟩
    · simp
    · by_cases h1 : ((e :: t).map (·.version)).dedup.length = 1
      · rw [if_neg (by simp), if_pos h1]
        exact ⟨iff_of_true rfl (by simpa using h1.le), by intro r hr; simp at hr⟩
      · rw [if_neg (by simp), if_neg h1]
        have h0 : ((e :: t).map (·.version)).dedup.length ≠ 0 := by
          simp [List.length_eq_zero, List.dedup_eq_nil]
        refine ⟨⟨fun h => by simp at h, fun h => absurd h (by omega)⟩, ?_⟩
        intro r hr
        have heq : (⟨n, e :: t⟩ : ConflictRecord) = r := Option.some_injective _ hr
        rw [← heq]
        exact ⟨rfl, by simp⟩
  exact main (packageConflictRows s n)

/-- Witness for C5: on the concrete two-constraint graph the populated
record is the one the characterization describes. -/
theorem findPackageConflict_absent_iff_witness :
    (⟨"X", packageConflictRows conflictWitnessState "X"⟩ : ConflictRecord)
        = ⟨"X", packageConflictRows conflictWitnessState "X"⟩
      ∧ (⟨"X", packageConflictRows conflictWitnessState "X"⟩ :
          ConflictRecord).dependencies ≠ [] :=
  (findPackageConflict_absent_iff conflictWitnessState "X").2
    ⟨"X", packageConflictRows conflictWitnessState "X"⟩ (by decide)

lemma dedup_map_dedup_length (l : List DepEntry) :
    ((l.dedup.map (·.version)).dedup).length = ((l.map (·.version)).dedup).length := by
  have hfin : (l.dedup.map (·.version)).toFinset = (l.map (·.version)).toFinset := by
    ext x
    simp [List.mem_dedup]
  have h1 := List.card_toFinset (l.dedup.map (·.version))
  have h2 := List.card_toFinset (l.map (·.version))
  rw [hfin] at h1
  omega

lemma conflicts_primary_eq_basic_aux (gs : List (String × List DepEntry)) :
    gs.filterMap (fun g =>
        if 1 < g.2.dedup.length then
          if 1 < ((g.2.dedup.map (·.version)).dedup).length then
            some (⟨g.1, g.2.dedup⟩ : ConflictRecord)
          else none
        else none)
      = ((gs.filterMap (fun g =>
            if 1 < g.2.length then some (⟨g.1, g.2⟩ : ConflictRecord) else none)).filter
          (fun record => 1 < ((record.dependencies.map (·.version)).dedup).length)).map
          (fun r => ⟨r.packageName, r.dependencies.dedup⟩) := by
  induction gs with
  | nil => rfl
  | cons g t ih =>
    obtain ⟨n, deps⟩ := g
    by_cases hk : 1 < ((deps.map (·.version)).dedup).length
    · have hk' : 1 < ((deps.dedup.map (·.version)).dedup).length := by
        rw [dedup_map_dedup_length]; exact hk
      have hdd : 1 < deps.dedup.length :=
        lt_of_lt_of_le hk' (le_trans
          (List.Sublist.length_le (List.dedup_sublist _)) (by rw [List.length_map]))
      have hlen : 1 < deps.length :=
        lt_of_lt_of_le hk (le_trans
          (List.Sublist.length_le (List.dedup_sublist _)) (by rw [List.length_map]))
      rw [List.filterMap_cons_some (b := (⟨n, deps.dedup⟩ : ConflictRecord))
          (by rw [if_pos hdd, if_pos hk']),
        List.filterMap_cons_some (b := (⟨n, deps⟩ : ConflictRecord))
          (by rw [if_pos hlen]),
        List.filter_cons_of_pos (by simp only [decide_eq_true_eq]; exact hk),
        List.map_cons, ih]
    · have hk' : ¬ 1 < ((deps.dedup.map (·.version)).dedup).length := by
        rw [dedup_map_dedup_length]; exact hk
      rw [List.filterMap_cons_none (by
        show (if 1 < deps.dedup.length then
            if 1 < ((deps.dedup.map (·.version)).dedup).length then
              some (⟨n, deps.dedup⟩ : ConflictRecord)
            else none
          else none) = none
        rcases Nat.lt_or_ge 1 deps.dedup.length with h1 | h1
        · rw [if_pos h1, if_neg hk']
        · rw [if_neg (by omega)])]
      by_cases hlen : 1 < deps.length
      · rw [List.filterMap_cons_some (b := (⟨n, deps⟩ : ConflictRecord))
            (by rw [if_pos hlen]),
          List.filter_cons_of_neg (by simp only [decide_eq_true_eq]; exact hk)]
        exact ih
      · rw [List.filterMap_cons_none (by rw [if_neg hlen])]
        exact ih

/-- C3 amended: on every graph state the primary strategy and the fallback
flag the same set of conflicting package names, and the primary's per-package
dependency list is exactly the deduplication of the fallback's; the full
results therefore coincide whenever no duplicate collected map occurs, in
particular on every builder-produced graph, which holds at most one edge per
(project, package) pair. -/
theorem findVersionConflicts_eq_basic_up_to_dedup (s : GraphState) :
    findVersionConflicts s
        = (findVersionConflictsBasic s).map
            (fun r => ⟨r.packageName, r.dependencies.dedup⟩)
      ∧ (findVersionConflicts s).map (·.packageName)
        = (findVersionConflictsBasic s).map (·.packageName) := by
  have h := conflicts_primary_eq_basic_aux (conflictGroups s)
  refine ⟨h, ?_⟩
  rw [show findVersionConflicts s = _ from h, List.map_map]
  rfl

/-- Counterexample to C3 as stated: on the parallel-edge graph both
strategies flag exactly package X, yet their per-package dependency lists
differ (the fallback keeps the duplicated collected map, the primary does
not). -/
theorem findVersionConflicts_basic_lists_differ :
    (findVersionConflicts parallelEdgeState).map (·.packageName) = ["X"]
      ∧ (findVersionConflictsBasic parallelEdgeState).map (·.packageName) = ["X"]
      ∧ findVersionConflicts parallelEdgeState
        ≠ findVersionConflictsBasic parallelEdgeState := by
  refine ⟨by decide, by decide, by decide⟩

lemma hasProjectNamed_iff (s : GraphState) (n : String) :
    hasProjectNamed s n = true ↔ HasProject s n := by
  simp [hasProjectNamed, HasProject, List.any_eq_true]

lemma hasPackageNamed_iff (s : GraphState) (n : String) :
    hasPackageNamed s n = true ↔ HasPackage s n := by
  simp [hasPackageNamed, HasPackage, List.any_eq_true]

lemma hasFilePath_iff (s : GraphState) (fp : String) :
    hasFilePath s fp = true ↔ HasManifestFile s fp := by
  simp [hasFilePath, HasManifestFile, List.any_eq_true]

lemma hasDirectEdge_iff (s : GraphState) (pn kn : String) :
    hasDirectEdge s pn kn = true ↔ HasEdge s pn kn := by
  simp [hasDirectEdge, HasEdge, List.any_eq_true]

lemma HasProject_ext {s t : GraphState} (h : t.projects = s.projects) (n : String) :
    HasProject t n ↔ HasProject s n := by
  unfold HasProject; rw [h]

lemma HasPackage_ext {s t : GraphState} (h : t.packages = s.packages) (n : String) :
    HasPackage t n ↔ HasPackage s n := by
  unfold HasPackage; rw [h]

lemma HasManifestFile_ext {s t : GraphState} (h : t.files = s.files) (fp : String) :
    HasManifestFile t fp ↔ HasManifestFile s fp := by
  unfold HasManifestFile; rw [h]

lemma HasEdge_ext {s t : GraphState} (h : t.dependsOn = s.dependsOn) (a b : String) :
    HasEdge t a b ↔ HasEdge s a b := by
  unfold HasEdge; rw [h]

/-! ### Behaviour of the individual upserts -/

lemma mergeProjectNode_packages (s : GraphState) (m : ManifestRecord) :
    (mergeProjectNode s m).packages = s.packages := by
  unfold mergeProjectNode; split <;> rfl

lemma mergeProjectNode_files (s : GraphState) (m : ManifestRecord) :
    (mergeProjectNode s m).files = s.files := by
  unfold mergeProjectNode; split <;> rfl

lemma mergeProjectNode_dependsOn (s : GraphState) (m : ManifestRecord) :
    (mergeProjectNode s m).dependsOn = s.dependsOn := by
  unfold mergeProjectNode; split <;> rfl

lemma mergeProjectNode_hasFile (s : GraphState) (m : ManifestRecord) :
    (mergeProjectNode s m).hasFile = s.hasFile := by
  unfold mergeProjectNode; split <;> rfl

lemma mergeProjectNode_length (s : GraphState) (m : ManifestRecord)
    (h : HasProject s m.projectName) :
    (mergeProjectNode s m).projects.length = s.projects.length := by
  unfold mergeProjectNode
  rw [if_pos ((hasProjectNamed_iff s m.projectName).mpr h)]
  simp

lemma mergeProjectNode_self (s : GraphState) (m : ManifestRecord) :
    HasProject (mergeProjectNode s m) m.projectName := by
  unfold mergeProjectNode
  split
  · rename_i hb
    obtain ⟨p, hp, hname⟩ := (hasProjectNamed_iff s m.projectName).mp hb
    refine ⟨_, List.mem_map_of_mem _ hp, ?_⟩
    dsimp only
    rw [if_pos hname]
    exact hname
  · exact ⟨_, List.mem_append_right _ (List.mem_singleton_self _), rfl⟩

lemma mergeProjectNode_mono (s : GraphState) (m : ManifestRecord) (n : String)
    (h : HasProject s n) : HasProject (mergeProjectNode s m) n := by
  unfold mergeProjectNode
  obtain ⟨p, hp, hname⟩ := h
  split
  · refine ⟨_, List.mem_map_of_mem _ hp, ?_⟩
    dsimp only
    split <;> exact hname
  · exact ⟨p, List.mem_append_left _ hp, hname⟩

lemma mergePackageNode_projects (s : GraphState) (dep : DependencyRecord) :
    (mergePackageNode s dep).projects = s.projects := by
  unfold mergePackageNode; split <;> rfl

lemma mergePackageNode_files (s : GraphState) (dep : DependencyRecord) :
    (mergePackageNode s dep).files = s.files := by
  unfold mergePackageNode; split <;> rfl

lemma mergePackageNode_dependsOn (s : GraphState) (dep : DependencyRecord) :
    (mergePackageNode s dep).dependsOn = s.dependsOn := by
  unfold mergePackageNode; split <;> rfl

lemma mergePackageNode_hasFile (s : GraphState) (dep : DependencyRecord) :
    (mergePackageNode s dep).hasFile = s.hasFile := by
  unfold mergePackageNode; split <;> rfl

lemma mergePackageNode_length (s : GraphState) (dep : DependencyRecord)
    (h : HasPackage s dep.name) :
    (mergePackageNode s dep).packages.length = s.packages.length := by
  unfold mergePackageNode
  rw [if_pos ((hasPackageNamed_iff s dep.name).mpr h)]
  simp

lemma mergePackageNode_self (s : GraphState) (dep : DependencyRecord) :
    HasPackage (mergePackageNode s dep) dep.name := by
  unfold mergePackageNode
  split
  · rename_i hb
    obtain ⟨p, hp, hname⟩ := (hasPackageNamed_iff s dep.name).mp hb
    refine ⟨_, List.mem_map_of_mem _ hp, ?_⟩
    dsimp only
    rw [if_pos hname]
    exact hname
  · exact ⟨_, List.mem_append_right _ (List.mem_singleton_self _), rfl⟩

lemma mergePackageNode_mono (s : GraphState) (dep : DependencyRecord) (n : String)
    (h : HasPackage s n) : HasPackage (mergePackageNode s dep) n := by
  unfold mergePackageNode
  obtain ⟨p, hp, hname⟩ := h
  split
  · refine ⟨_, List.mem_map_of_mem _ hp, ?_⟩
    dsimp only
    split <;> exact hname
  · exact ⟨p, List.mem_append_left _ hp, hname⟩

lemma mergeDependsOnEdge_projects (s : GraphState) (pn : String)
    (dep : DependencyRecord) : (mergeDependsOnEdge s pn dep).projects = s.projects := by
  unfold mergeDependsOnEdge
  split
  · split <;> rfl
  · rfl

lemma mergeDependsOnEdge_packages (s : GraphState) (pn : String)
    (dep : DependencyRecord) : (mergeDependsOnEdge s pn dep).packages = s.packages := by
  unfold mergeDependsOnEdge
  split
  · split <;> rfl
  · rfl

lemma mergeDependsOnEdge_files (s : GraphState) (pn : String)
    (dep : DependencyRecord) : (mergeDependsOnEdge s pn dep).files = s.files := by
  unfold mergeDependsOnEdge
  split
  · split <;> rfl
  · rfl

lemma mergeDependsOnEdge_hasFile (s : GraphState) (pn : String)
    (dep : DependencyRecord) : (mergeDependsOnEdge s pn dep).hasFile = s.hasFile := by
  unfold mergeDependsOnEdge
  split
  · split <;> rfl
  · rfl

lemma mergeDependsOnEdge_length (s : GraphState) (pn : String)
    (dep : DependencyRecord) (h : HasEdge s pn dep.name) :
    (mergeDependsOnEdge s pn dep).dependsOn.length = s.dependsOn.length := by
  unfold mergeDependsOnEdge
  split
  · rw [if_pos ((hasDirectEdge_iff s pn dep.name).mpr h)]
    simp
  · rfl

lemma mergeDependsOnEdge_self (s : GraphState) (pn : String)
    (dep : DependencyRecord) (hp : HasProject s pn) (hk : HasPackage s dep.name) :
    HasEdge (mergeDependsOnEdge s pn dep) pn dep.name := by
  unfold mergeDependsOnEdge
  rw [if_pos (by
    rw [Bool.and_eq_true]
    exact ⟨(hasProjectNamed_iff s pn).mpr hp, (hasPackageNamed_iff s dep.name).mpr hk⟩)]
  split
  · rename_i hb
    obtain ⟨e, he, hsd⟩ := (hasDirectEdge_iff s pn dep.name).mp hb
    refine ⟨_, List.mem_map_of_mem _ he, ?_⟩
    dsimp only
    rw [if_pos hsd]
    exact hsd
  · exact ⟨_, List.mem_append_right _ (List.mem_singleton_self _), rfl, rfl⟩

lemma mergeDependsOnEdge_mono (s : GraphState) (pn : String)
    (dep : DependencyRecord) (a b : String) (h : HasEdge s a b) :
    HasEdge (mergeDependsOnEdge s pn dep) a b := by
  unfold mergeDependsOnEdge
  obtain ⟨e, he, hsd⟩ := h
  split
  · split
    · refine ⟨_, List.mem_map_of_mem _ he, ?_⟩
      dsimp only
      split <;> exact hsd
    · exact ⟨e, List.mem_append_left _ he, hsd⟩
  · exact ⟨e, he, hsd⟩

lemma mergeFileOnly_projects (s : GraphState) (m : ManifestRecord) :
    (mergeFileOnly s m).projects = s.projects := by
  unfold mergeFileOnly; split <;> rfl

lemma mergeFileOnly_packages (s : GraphState) (m : ManifestRecord) :
    (mergeFileOnly s m).packages = s.packages := by
  unfold mergeFileOnly; split <;> rfl

lemma mergeFileOnly_dependsOn (s : GraphState) (m : ManifestRecord) :
    (mergeFileOnly s m).dependsOn = s.dependsOn := by
  unfold mergeFileOnly; split <;> rfl

lemma mergeFileOnly_hasFile (s : GraphState) (m : ManifestRecord) :
    (mergeFileOnly s m).hasFile = s.hasFile := by
  unfold mergeFileOnly; split <;> rfl

lemma mergeFileOnly_length (s : GraphState) (m : ManifestRecord)
    (h : HasManifestFile s m.dependencyFile) :
    (mergeFileOnly s m).files.length = s.files.length := by
  unfold mergeFileOnly
  rw [if_pos ((hasFilePath_iff s m.dependencyFile).mpr h)]
  simp

lemma mergeFileOnly_self (s : GraphState) (m : ManifestRecord) :
    HasManifestFile (mergeFileOnly s m) m.dependencyFile := by
  unfold mergeFileOnly
  split
  · rename_i hb
    obtain ⟨f, hf, hpath⟩ := (hasFilePath_iff s m.dependencyFile).mp hb
    refine ⟨_, List.mem_map_of_mem _ hf, ?_⟩
    dsimp only
    rw [if_pos hpath]
    exact hpath
  · exact ⟨_, List.mem_append_right _ (List.mem_singleton_self _), rfl⟩

lemma mergeHasFileEdge_projects (s : GraphState) (m : ManifestRecord) :
    (mergeHasFileEdge s m).projects = s.projects := by
  unfold mergeHasFileEdge; split <;> rfl

lemma mergeHasFileEdge_packages (s : GraphState) (m : ManifestRecord) :
    (mergeHasFileEdge s m).packages = s.packages := by
  unfold mergeHasFileEdge; split <;> rfl

lemma mergeHasFileEdge_files (s : GraphState) (m : ManifestRecord) :
    (mergeHasFileEdge s m).files = s.files := by
  unfold mergeHasFileEdge; split <;> rfl

lemma mergeHasFileEdge_dependsOn (s : GraphState) (m : ManifestRecord) :
    (mergeHasFileEdge s m).dependsOn = s.dependsOn := by
  unfold mergeHasFileEdge; split <;> rfl

lemma mergeHasFileEdge_length (s : GraphState) (m : ManifestRecord)
    (h : (m.projectName, m.dependencyFile) ∈ s.hasFile) :
    (mergeHasFileEdge s m).hasFile.length = s.hasFile.length := by
  unfold mergeHasFileEdge
  rw [if_pos (by simpa using h)]

lemma mergeHasFileEdge_self (s : GraphState) (m : ManifestRecord) :
    (m.projectName, m.dependencyFile) ∈ (mergeHasFileEdge s m).hasFile := by
  unfold mergeHasFileEdge
  split
  · rename_i hb
    simpa using hb
  · exact List.mem_append_right _ (List.mem_singleton_self _)

lemma createDependencyNodes_projects (s : GraphState) (pn : String)
    (ds : List DependencyRecord) :
    (createDependencyNodes s pn ds).projects = s.projects := by
  induction ds generalizing s with
  | nil => rfl
  | cons d rest ih =>
    simp only [createDependencyNodes]
    rw [ih, mergeDependsOnEdge_projects, mergePackageNode_projects]

lemma createDependencyNodes_files (s : GraphState) (pn : String)
    (ds : List DependencyRecord) :
    (createDependencyNodes s pn ds).files = s.files := by
  induction ds generalizing s with
  | nil => rfl
  | cons d rest ih =>
    simp only [createDependencyNodes]
    rw [ih, mergeDependsOnEdge_files, mergePackageNode_files]

lemma createDependencyNodes_hasFile (s : GraphState) (pn : String)
    (ds : List DependencyRecord) :
    (createDependencyNodes s pn ds).hasFile = s.hasFile := by
  induction ds generalizing s with
  | nil => rfl
  | cons d rest ih =>
    simp only [createDependencyNodes]
    rw [ih, mergeDependsOnEdge_hasFile, mergePackageNode_hasFile]

lemma createDependencyNodes_mono_package (s : GraphState) (pn : String)
    (ds : List DependencyRecord) (n : String) (h : HasPackage s n) :
    HasPackage (createDependencyNodes s pn ds) n := by
  induction ds generalizing s with
  | nil => exact h
  | cons d rest ih =>
    simp only [createDependencyNodes]
    exact ih _ ((HasPackage_ext (mergeDependsOnEdge_packages _ _ _) n).mpr
      (mergePackageNode_mono s d n h))

lemma createDependencyNodes_mono_edge (s : GraphState) (pn : String)
    (ds : List DependencyRecord) (a b : String) (h : HasEdge s a b) :
    HasEdge (createDependencyNodes s pn ds) a b := by
  induction ds generalizing s with
  | nil => exact h
  | cons d rest ih =>
    simp only [createDependencyNodes]
    exact ih _ (mergeDependsOnEdge_mono _ _ _ _ _
      ((HasEdge_ext (mergePackageNode_dependsOn s d) a b).mpr h))

lemma createDependencyNodes_progress (s : GraphState) (pn : String)
    (ds : List DependencyRecord) (hp : HasProject s pn) :
    ∀ d ∈ ds, HasPackage (createDependencyNodes s pn ds) d.name
      ∧ HasEdge (createDependencyNodes s pn ds) pn d.name := by
  induction ds generalizing s with
  | nil => intro d hd; cases hd
  | cons d rest ih =>
    intro d' hd'
    simp only [createDependencyNodes]
    have hpkg0 : HasPackage (mergePackageNode s d) d.name := mergePackageNode_self s d
    have hp0 : HasProject (mergePackageNode s d) pn :=
      (HasProject_ext (mergePackageNode_projects s d) pn).mpr hp
    have hedge0 : HasEdge (mergeDependsOnEdge (mergePackageNode s d) pn d) pn d.name :=
      mergeDependsOnEdge_self _ _ _ hp0 hpkg0
    have hpkg1 : HasPackage (mergeDependsOnEdge (mergePackageNode s d) pn d) d.name :=
      (HasPackage_ext (mergeDependsOnEdge_packages _ _ _) _).mpr hpkg0
    have hp1 : HasProject (mergeDependsOnEdge (mergePackageNode s d) pn d) pn :=
      (HasProject_ext (mergeDependsOnEdge_projects _ _ _) _).mpr hp0
    rcases List.mem_cons.mp hd' with rfl | hmem
    · exact ⟨createDependencyNodes_mono_package _ _ _ _ hpkg1,
        createDependencyNodes_mono_edge _ _ _ _ _ hedge0⟩
    · exact ih _ hp1 d' hmem

lemma createDependencyNodes_stable (s : GraphState) (pn : String)
    (ds : List DependencyRecord)
    (h : ∀ d ∈ ds, HasPackage s d.name ∧ HasEdge s pn d.name) :
    (createDependencyNodes s pn ds).packages.length = s.packages.length
    ∧ (createDependencyNodes s pn ds).dependsOn.length = s.dependsOn.length := by
  induction ds generalizing s with
  | nil => exact ⟨rfl, rfl⟩
  | cons d rest ih =>
    obtain ⟨hpk, hed⟩ := h d (List.mem_cons_self d rest)
    simp only [createDependencyNodes]
    have hedpkg : HasEdge (mergePackageNode s d) pn d.name :=
      (HasEdge_ext (mergePackageNode_dependsOn s d) pn d.name).mpr hed
    have hpkgLen1 : (mergeDependsOnEdge (mergePackageNode s d) pn d).packages.length
        = s.packages.length := by
      rw [mergeDependsOnEdge_packages]
      exact mergePackageNode_length s d hpk
    have hedgeLen1 : (mergeDependsOnEdge (mergePackageNode s d) pn d).dependsOn.length
        = s.dependsOn.length := by
      rw [mergeDependsOnEdge_length _ _ _ hedpkg, mergePackageNode_dependsOn]
    have hrest : ∀ d' ∈ rest,
        HasPackage (mergeDependsOnEdge (mergePackageNode s d) pn d) d'.name
        ∧ HasEdge (mergeDependsOnEdge (mergePackageNode s d) pn d) pn d'.name := by
      intro d' hd'
      obtain ⟨ha, hb⟩ := h d' (List.mem_cons_of_mem d hd')
      exact ⟨(HasPackage_ext (mergeDependsOnEdge_packages _ _ _) _).mpr
          (mergePackageNode_mono s d _ ha),
        mergeDependsOnEdge_mono _ _ _ _ _
          ((HasEdge_ext (mergePackageNode_dependsOn s d) _ _).mpr hb)⟩
    obtain ⟨ih1, ih2⟩ := ih _ hrest
    exact ⟨ih1.trans hpkgLen1, ih2.trans hedgeLen1⟩

lemma mergeFileNode_projects (s : GraphState) (m : ManifestRecord) :
    (mergeFileNode s m).projects = s.projects := by
  unfold mergeFileNode
  split
  · rw [mergeHasFileEdge_projects, mergeFileOnly_projects]
  · rfl

lemma mergeFileNode_packages (s : GraphState) (m : ManifestRecord) :
    (mergeFileNode s m).packages = s.packages := by
  unfold mergeFileNode
  split
  · rw [mergeHasFileEdge_packages, mergeFileOnly_packages]
  · rfl

lemma mergeFileNode_dependsOn (s : GraphState) (m : ManifestRecord) :
    (mergeFileNode s m).dependsOn = s.dependsOn := by
  unfold mergeFileNode
  split
  · rw [mergeHasFileEdge_dependsOn, mergeFileOnly_dependsOn]
  · rfl

lemma mergeFileNode_progress (s : GraphState) (m : ManifestRecord)
    (hp : HasProject s m.projectName) :
    HasManifestFile (mergeFileNode s m) m.dependencyFile
    ∧ (m.projectName, m.dependencyFile) ∈ (mergeFileNode s m).hasFile := by
  unfold mergeFileNode
  rw [if_pos ((hasProjectNamed_iff s m.projectName).mpr hp)]
  exact ⟨(HasManifestFile_ext (mergeHasFileEdge_files _ _) _).mpr (mergeFileOnly_self s m),
    mergeHasFileEdge_self _ m⟩

lemma mergeFileNode_stable (s : GraphState) (m : ManifestRecord)
    (hf : HasManifestFile s m.dependencyFile)
    (hpair : (m.projectName, m.dependencyFile) ∈ s.hasFile) :
    (mergeFileNode s m).files.length = s.files.length
    ∧ (mergeFileNode s m).hasFile.length = s.hasFile.length := by
  unfold mergeFileNode
  split
  · constructor
    · rw [mergeHasFileEdge_files]
      exact mergeFileOnly_length s m hf
    · rw [mergeHasFileEdge_length _ _ (by rw [mergeFileOnly_hasFile]; exact hpair),
        mergeFileOnly_hasFile]
  · exact ⟨rfl, rfl⟩

lemma buildProjectGraph_progress (s : GraphState) (m : ManifestRecord) :
    HasProject (buildProjectGraph s m) m.projectName
    ∧ (∀ d ∈ m.dependencies,
        HasPackage (buildProjectGraph s m) d.name
        ∧ HasEdge (buildProjectGraph s m) m.projectName d.name)
    ∧ HasManifestFile (buildProjectGraph s m) m.dependencyFile
    ∧ (m.projectName, m.dependencyFile) ∈ (buildProjectGraph s m).hasFile := by
  unfold buildProjectGraph
  have hp0 : HasProject (mergeProjectNode s m) m.projectName := mergeProjectNode_self s m
  have hp1 : HasProject
      (createDependencyNodes (mergeProjectNode s m) m.projectName m.dependencies)
      m.projectName :=
    (HasProject_ext (createDependencyNodes_projects _ _ _) _).mpr hp0
  have hdeps := createDependencyNodes_progress (mergeProjectNode s m) m.projectName
    m.dependencies hp0
  refine ⟨(HasProject_ext (mergeFileNode_projects _ _) _).mpr hp1, ?_,
    (mergeFileNode_progress _ m hp1).1, (mergeFileNode_progress _ m hp1).2⟩
  intro d hd
  obtain ⟨ha, hb⟩ := hdeps d hd
  exact ⟨(HasPackage_ext (mergeFileNode_packages _ _) _).mpr ha,
    (HasEdge_ext (mergeFileNode_dependsOn _ _) _ _).mpr hb⟩

lemma buildProjectGraph_stable (s : GraphState) (m : ManifestRecord)
    (hp : HasProject s m.projectName)
    (hdeps : ∀ d ∈ m.dependencies, HasPackage s d.name ∧ HasEdge s m.projectName d.name)
    (hf : HasManifestFile s m.dependencyFile)
    (hpair : (m.projectName, m.dependencyFile) ∈ s.hasFile) :
    (buildProjectGraph s m).projects.length = s.projects.length
    ∧ (buildProjectGraph s m).packages.length = s.packages.length
    ∧ (buildProjectGraph s m).files.length = s.files.length
    ∧ (buildProjectGraph s m).dependsOn.length = s.dependsOn.length
    ∧ (buildProjectGraph s m).hasFile.length = s.hasFile.length := by
  unfold buildProjectGraph
  have hdeps0 : ∀ d ∈ m.dependencies,
      HasPackage (mergeProjectNode s m) d.name
      ∧ HasEdge (mergeProjectNode s m) m.projectName d.name := by
    intro d hd
    obtain ⟨ha, hb⟩ := hdeps d hd
    exact ⟨(HasPackage_ext (mergeProjectNode_packages s m) _).mpr ha,
      (HasEdge_ext (mergeProjectNode_dependsOn s m) _ _).mpr hb⟩
  obtain ⟨hlen1, hlen2⟩ :=
    createDependencyNodes_stable (mergeProjectNode s m) m.projectName m.dependencies hdeps0
  have hfiles1 :
      (createDependencyNodes (mergeProjectNode s m) m.projectName m.dependencies).files
        = s.files := by
    rw [createDependencyNodes_files, mergeProjectNode_files]
  have hhasFile1 :
      (createDependencyNodes (mergeProjectNode s m) m.projectName m.dependencies).hasFile
        = s.hasFile := by
    rw [createDependencyNodes_hasFile, mergeProjectNode_hasFile]
  obtain ⟨hfl, hhl⟩ := mergeFileNode_stable
    (createDependencyNodes (mergeProjectNode s m) m.projectName m.dependencies) m
    ((HasManifestFile_ext hfiles1 _).mpr hf) (hhasFile1 ▸ hpair)
  refine ⟨?_, ?_, ?_, ?_, ?_⟩
  · rw [mergeFileNode_projects, createDependencyNodes_projects]
    exact mergeProjectNode_length s m hp
  · rw [mergeFileNode_packages]
    rw [mergeProjectNode_packages] at hlen1
    exact hlen1
  · rw [hfl, hfiles1]
  · rw [mergeFileNode_dependsOn]
    rw [mergeProjectNode_dependsOn] at hlen2
    exact hlen2
  · rw [hhl, hhasFile1]

/-- C7: running buildProjectGraph a second time with an identical Manifest
Record leaves the counts of Project, Package and File nodes and of
DEPENDS_ON and HAS_FILE edges unchanged from the state after the first run:
every step is an upsert, not an insert. -/
theorem buildProjectGraph_idempotent_counts (s : GraphState) (m : ManifestRecord) :
    (buildProjectGraph (buildProjectGraph s m) m).projects.length
        = (buildProjectGraph s m).projects.length
    ∧ (buildProjectGraph (buildProjectGraph s m) m).packages.length
        = (buildProjectGraph s m).packages.length
    ∧ (buildProjectGraph (buildProjectGraph s m) m).files.length
        = (buildProjectGraph s m).files.length
    ∧ (buildProjectGraph (buildProjectGraph s m) m).dependsOn.length
        = (buildProjectGraph s m).dependsOn.length
    ∧ (buildProjectGraph (buildProjectGraph s m) m).hasFile.length
        = (buildProjectGraph s m).hasFile.length := by
  obtain ⟨h1, h2, h3, h4⟩ := buildProjectGraph_progress s m
  exact buildProjectGraph_stable (buildProjectGraph s m) m h1 h2 h3 h4

/-! ### Theorems for the derived-edge construction -/

lemma applyLinkRow_dependsOn (s : GraphState) (row : LinkRow) :
    (applyLinkRow s row).dependsOn =
      if s.dependsOn.any (fun e =>
          e.src = EdgeEnd.pkg row.projName ∧ e.dst = EdgeEnd.pkg row.depName) then
        s.dependsOn
      else s.dependsOn ++ [mkDerivedEdge row] := by
  unfold applyLinkRow mkDerivedEdge
  split <;> rfl

lemma foldl_applyLinkRow_mem (rows : List LinkRow) (s : GraphState) :
    ∀ e ∈ (rows.foldl applyLinkRow s).dependsOn,
      e ∈ s.dependsOn ∨ ∃ row ∈ rows, e = mkDerivedEdge row := by
  induction rows generalizing s with
  | nil => exact fun e he => Or.inl he
  | cons row rest ih =>
    intro e he
    rw [List.foldl_cons] at he
    rcases ih (applyLinkRow s row) e he with h | ⟨r, hr, he'⟩
    · rw [applyLinkRow_dependsOn] at h
      split at h
      · exact Or.inl h
      · rw [List.mem_append, List.mem_singleton] at h
        rcases h with h | h
        · exact Or.inl h
        · exact Or.inr ⟨row, List.mem_cons_self _ _, h⟩
    · exact Or.inr ⟨r, List.mem_cons_of_mem _ hr, he'⟩

lemma linkRows_sound (s : GraphState) (row : LinkRow) (h : row ∈ linkRows s) :
    (∃ p ∈ s.projects, p.name = row.projName)
    ∧ (∃ pk ∈ s.packages, pk.name = row.depName)
    ∧ ∃ r ∈ s.dependsOn, r.src = EdgeEnd.proj row.projName
        ∧ r.dst = EdgeEnd.pkg row.depName
        ∧ r.versionConstraint = row.versionConstraint ∧ r.type = row.type := by
  unfold linkRows at h
  simp only [List.mem_flatMap] at h
  obtain ⟨proj, hproj, h⟩ := h
  obtain ⟨pkg, hpkg, h⟩ := h
  by_cases hc : pkg.name = proj.name
  · rw [if_pos hc] at h
    simp only [List.mem_flatMap, List.mem_map, List.mem_filter,
      decide_eq_true_eq] at h
    obtain ⟨dp, hdp, r, ⟨hrmem, hsrc, hdst⟩, hrow⟩ := h
    subst hrow
    exact ⟨⟨proj, hproj, rfl⟩, ⟨dp, hdp, rfl⟩, r, hrmem, hsrc, hdst, rfl, rfl⟩
  · rw [if_neg hc] at h
    simp at h

/-- C1 amended: every edge added by linkPackageDependencies carries the
derived tag, starts at a package whose name is also the name of a Project
node, ends at an existing Package node, and copies constraint and type from
a direct Project-to-Package edge between those names; the target name need
not belong to any Project. -/
theorem linkPackageDependencies_edge_provenance (s : GraphState) :
    ∀ e ∈ (linkPackageDependencies s).dependsOn,
      e ∈ s.dependsOn ∨
        (e.source = some "derived"
          ∧ ∃ n dn, e.src = EdgeEnd.pkg n ∧ e.dst = EdgeEnd.pkg dn
              ∧ (∃ p ∈ s.projects, p.name = n)
              ∧ (∃ pk ∈ s.packages, pk.name = dn)
              ∧ ∃ r ∈ s.dependsOn, r.src = EdgeEnd.proj n
                  ∧ r.dst = EdgeEnd.pkg dn
                  ∧ r.versionConstraint = e.versionConstraint
                  ∧ r.type = e.type) := by
  intro e he
  rcases foldl_applyLinkRow_mem (linkRows s) s e he with h | ⟨row, hrow, he'⟩
  · exact Or.inl h
  · obtain ⟨hp, hpk, r, hrmem, hsrc, hdst, hvc, hty⟩ := linkRows_sound s row hrow
    subst he'
    exact Or.inr ⟨rfl, row.projName, row.depName, rfl, rfl, hp, hpk,
      r, hrmem, hsrc, hdst, hvc, hty⟩

/-- Counterexample to C1 as stated: after running the derivation on the
concrete graph, a derived edge exists whose target lib is not the name of
any Project node. -/
theorem linkPackageDependencies_target_not_project :
    ¬ (∀ e ∈ (linkPackageDependencies linkCexState).dependsOn,
        e.source = some "derived" →
          derivedTargetIsProjectName (linkPackageDependencies linkCexState) e = true) := by
  decide

/-- Witness for the amended C1 at the concrete graph: the derived edge is
new, tagged, starts at the project name app, and mirrors the direct edge to
lib. -/
theorem linkPackageDependencies_edge_provenance_witness :
    derivedAppLib.source = some "derived"
    ∧ ∃ n dn, derivedAppLib.src = EdgeEnd.pkg n ∧ derivedAppLib.dst = EdgeEnd.pkg dn
        ∧ (∃ p ∈ linkCexState.projects, p.name = n)
        ∧ (∃ pk ∈ linkCexState.packages, pk.name = dn)
        ∧ ∃ r ∈ linkCexState.dependsOn, r.src = EdgeEnd.proj n
            ∧ r.dst = EdgeEnd.pkg dn
            ∧ r.versionConstraint = derivedAppLib.versionConstraint
            ∧ r.type = derivedAppLib.type :=
  (linkPackageDependencies_edge_provenance linkCexState derivedAppLib
    (by decide)).resolve_left (by decide)

/-! ### Theorems for the statistics calls -/

/-- Counterexample to C2 as stated: a failing statistics query makes both
getStatistics calls return the substitute value null instead of raising the
error. -/
theorem getStatistics_failure_not_propagated :
    CircularDependencyAnalyzer.getStatistics (Except.error "query failed")
        ≠ Except.error "query failed"
    ∧ CircularDependencyAnalyzer.getStatistics (Except.error "query failed")
        = Except.ok none
    ∧ VersionConflictAnalyzer.getStatistics (Except.error "query failed")
        (Except.ok []) ≠ Except.error "query failed"
    ∧ VersionConflictAnalyzer.getStatistics (Except.error "query failed")
        (Except.ok []) = Except.ok none :=
  ⟨fun h => Except.noConfusion h, rfl, fun h => Except.noConfusion h, rfl⟩

/-- C2 amended: every store-query failure inside either getStatistics is
caught: the call logs it and returns null instead of raising — for the
cycle statistics query, for the conflict statistics query, and for the
conflict scan run inside the conflict statistics call. -/
theorem getStatistics_returns_null_on_failure :
    (∀ msg : String,
      CircularDependencyAnalyzer.getStatistics (Except.error msg) = Except.ok none)
    ∧ (∀ (msg : String) (c : Except String (List ConflictRecord)),
        VersionConflictAnalyzer.getStatistics (Except.error msg) c = Except.ok none)
    ∧ (∀ (msg : String) (row : ConflictStatsRow) (rest : List ConflictStatsRow),
        VersionConflictAnalyzer.getStatistics (Except.ok (row :: rest))
          (Except.error msg) = Except.ok none) :=
  ⟨fun _ => rfl, fun _ _ => rfl, fun _ _ _ => rfl⟩

/-- C8, evaluated at the failing input: the concrete graph has no cycle,
the aggregate row carries the count as a driver Integer object, the strict
zero test result[0].totalCycles === 0 therefore fails, and the call falls
through to the pass-through branch and returns null shortestCycle and
longestCycle instead of the all-zero record the claim (and the otherwise
unreachable zero branch of the code itself) describe. -/
theorem cycle_getStatistics_zero_cycles_null_fields :
    cyclePathRows acyclicState = []
    ∧ CircularDependencyAnalyzer.getStatistics (Except.ok (cycleStatsQuery acyclicState))
        = Except.ok (some ⟨JsIntValue.integer 0, none, none, 0⟩)
    ∧ (JsIntValue.integer 0).strictEqZero = false :=
  ⟨by decide, rfl, rfl⟩

/-! ### Theorems for the direct-cycle query -/

lemma mem_ite_singleton {α : Type} (x v : α) (c : Prop) [Decidable c] :
    x ∈ (if c then [v] else []) ↔ c ∧ x = v := by
  split
  · simp [*]
  · simp [*]

lemma length_filter_le_one_of_nodup_keys {α κ : Type} [DecidableEq κ]
    (l : List α) (key : α → κ) (p : α → Bool) (k : κ)
    (hn : (l.map key).Nodup) (hp : ∀ x, p x = true → key x = k) :
    (l.filter p).length ≤ 1 := by
  induction l with
  | nil => simp
  | cons a t ih =>
    rw [List.map_cons, List.nodup_cons] at hn
    by_cases hpa : p a = true
    · rw [List.filter_cons_of_pos hpa]
      have ht : t.filter p = [] := by
        rw [List.filter_eq_nil_iff]
        intro x hx hpx
        exact hn.1 (by rw [hp a hpa, ← hp x hpx]; exact List.mem_map_of_mem _ hx)
      rw [ht]
      simp
    · rw [List.filter_cons_of_neg hpa]
      exact ih hn.2

lemma nodup_inner (l1 l2 : List DependsOnEdge) (hl1 : l1.length ≤ 1)
    (hl2 : l2.length ≤ 1) (c : Prop) [Decidable c] (v : DirectCycle) :
    (l1.flatMap (fun _ => l2.flatMap (fun _ => if c then [v] else []))).Nodup := by
  rcases l1 with _ | ⟨x, xs⟩
  · exact List.nodup_nil
  · have hxs : xs = [] := by
      rw [List.length_cons] at hl1
      exact List.length_eq_zero.mp (by omega)
    subst hxs
    rw [List.flatMap_cons, List.flatMap_nil, List.append_nil]
    rcases l2 with _ | ⟨y, ys⟩
    · exact List.nodup_nil
    · have hys : ys = [] := by
        rw [List.length_cons] at hl2
        exact List.length_eq_zero.mp (by omega)
      subst hys
      rw [List.flatMap_cons, List.flatMap_nil, List.append_nil]
      split
      · exact List.nodup_singleton v
      · exact List.nodup_nil

lemma findDirect_inner_package1 (s : GraphState) (p1 : PackageNode) (z : DirectCycle)
    (hz : z ∈ s.packages.flatMap (fun p2 =>
      (s.dependsOn.filter (fun r1 =>
          r1.src = EdgeEnd.pkg p1.name ∧ r1.dst = EdgeEnd.pkg p2.name)).flatMap (fun _ =>
        (s.dependsOn.filter (fun r2 =>
            r2.src = EdgeEnd.pkg p2.name ∧ r2.dst = EdgeEnd.pkg p1.name)).flatMap (fun _ =>
          if strLt p1.name p2.name then [(⟨p1.name, p2.name⟩ : DirectCycle)] else [])))) :
    z.package1 = p1.name := by
  simp only [List.mem_flatMap, mem_ite_singleton] at hz
  obtain ⟨p2, _, r1, _, r2, _, _, hz⟩ := hz
  rw [hz]

lemma findDirect_inner_package2 (s : GraphState) (p1 p2 : PackageNode) (z : DirectCycle)
    (hz : z ∈ (s.dependsOn.filter (fun r1 =>
        r1.src = EdgeEnd.pkg p1.name ∧ r1.dst = EdgeEnd.pkg p2.name)).flatMap (fun _ =>
      (s.dependsOn.filter (fun r2 =>
          r2.src = EdgeEnd.pkg p2.name ∧ r2.dst = EdgeEnd.pkg p1.name)).flatMap (fun _ =>
        if strLt p1.name p2.name then [(⟨p1.name, p2.name⟩ : DirectCycle)] else []))) :
    z.package2 = p2.name := by
  simp only [List.mem_flatMap, mem_ite_singleton] at hz
  obtain ⟨r1, _, r2, _, _, hz⟩ := hz
  rw [hz]

/-- C6: under the store's uniqueness constraint on package names and with
at most one DEPENDS_ON relationship per ordered endpoint pair, the
direct-cycle query returns exactly the mutually-dependent unordered package
pairs, each once, the alphabetically smaller name first. -/
theorem findDirectCircularDependencies_pairs (s : GraphState)
    (h1 : (s.packages.map (·.name)).Nodup)
    (h2 : (s.dependsOn.map (fun e => (e.src, e.dst))).Nodup) :
    (∀ a b : String,
      (⟨a, b⟩ : DirectCycle) ∈ findDirectCircularDependencies s ↔
        (a ∈ s.packages.map (·.name) ∧ b ∈ s.packages.map (·.name) ∧ strLt a b = true
          ∧ (∃ r ∈ s.dependsOn, r.src = EdgeEnd.pkg a ∧ r.dst = EdgeEnd.pkg b)
          ∧ (∃ r ∈ s.dependsOn, r.src = EdgeEnd.pkg b ∧ r.dst = EdgeEnd.pkg a)))
    ∧ (findDirectCircularDependencies s).Nodup := by
  constructor
  · intro a b
    constructor
    · intro hmem
      unfold findDirectCircularDependencies at hmem
      simp only [List.mem_flatMap, mem_ite_singleton, List.mem_filter,
        decide_eq_true_eq] at hmem
      obtain ⟨p1, hp1, p2, hp2, r1, ⟨hr1m, hr1⟩, r2, ⟨hr2m, hr2⟩, hlt, heq⟩ := hmem
      have ha : a = p1.name := congrArg DirectCycle.package1 heq
      have hb : b = p2.name := congrArg DirectCycle.package2 heq
      subst ha
      subst hb
      exact ⟨List.mem_map_of_mem _ hp1, List.mem_map_of_mem _ hp2, hlt,
        ⟨r1, hr1m, hr1⟩, ⟨r2, hr2m, hr2⟩⟩
    · rintro ⟨ha, hb, hlt, ⟨r1, hr1m, hr1s, hr1d⟩, ⟨r2, hr2m, hr2s, hr2d⟩⟩
      unfold findDirectCircularDependencies
      simp only [List.mem_flatMap, mem_ite_singleton, List.mem_filter,
        decide_eq_true_eq]
      obtain ⟨p1, hp1, hp1n⟩ := List.mem_map.mp ha
      obtain ⟨p2, hp2, hp2n⟩ := List.mem_map.mp hb
      refine ⟨p1, hp1, p2, hp2, r1, ⟨hr1m, ?_, ?_⟩, r2, ⟨hr2m, ?_, ?_⟩, ?_, ?_⟩
      · rw [hp1n]; exact hr1s
      · rw [hp2n]; exact hr1d
      · rw [hp2n]; exact hr2s
      · rw [hp1n]; exact hr2d
      · rw [hp1n, hp2n]; exact hlt
      · rw [hp1n, hp2n]
  · unfold findDirectCircularDependencies
    rw [List.nodup_flatMap]
    constructor
    · intro p1 hp1
      rw [List.nodup_flatMap]
      constructor
      · intro p2 hp2
        refine nodup_inner _ _ ?_ ?_ _ _
        · refine length_filter_le_one_of_nodup_keys s.dependsOn
            (fun e => (e.src, e.dst)) _
            (EdgeEnd.pkg p1.name, EdgeEnd.pkg p2.name) h2 ?_
          intro x hx
          simp only [decide_eq_true_eq] at hx
          simp only [hx.1, hx.2]
        · refine length_filter_le_one_of_nodup_keys s.dependsOn
            (fun e => (e.src, e.dst)) _
            (EdgeEnd.pkg p2.name, EdgeEnd.pkg p1.name) h2 ?_
          intro x hx
          simp only [decide_eq_true_eq] at hx
          simp only [hx.1, hx.2]
      · refine (List.pairwise_map.mp h1).imp ?_
        intro p2 p2' hne z hz1 hz2
        have e1 := findDirect_inner_package2 s p1 p2 z hz1
        have e2 := findDirect_inner_package2 s p1 p2' z hz2
        exact hne (e1 ▸ e2)
    · refine (List.pairwise_map.mp h1).imp ?_
      intro p1 p1' hne z hz1 hz2
      have e1 := findDirect_inner_package1 s p1 z hz1
      have e2 := findDirect_inner_package1 s p1' z hz2
      exact hne (e1 ▸ e2)

/-- Witness for C6: the mutual pair D, E is characterized and reported,
and the concrete result is exactly the single alphabetical pair. -/
theorem findDirectCircularDependencies_pairs_witness :
    ((⟨"D", "E"⟩ : DirectCycle) ∈ findDirectCircularDependencies mutualPairState ↔
      ("D" ∈ mutualPairState.packages.map (·.name)
        ∧ "E" ∈ mutualPairState.packages.map (·.name) ∧ strLt "D" "E" = true
        ∧ (∃ r ∈ mutualPairState.dependsOn,
            r.src = EdgeEnd.pkg "D" ∧ r.dst = EdgeEnd.pkg "E")
        ∧ (∃ r ∈ mutualPairState.dependsOn,
            r.src = EdgeEnd.pkg "E" ∧ r.dst = EdgeEnd.pkg "D")))
    ∧ (findDirectCircularDependencies mutualPairState).Nodup
    ∧ findDirectCircularDependencies mutualPairState = [⟨"D", "E"⟩] :=
  ⟨(findDirectCircularDependencies_pairs mutualPairState (by decide) (by decide)).1 "D" "E",
    (findDirectCircularDependencies_pairs mutualPairState (by decide) (by decide)).2,
    by rfl⟩
